import Mathlib

/-!
Verification of the holiday-calendar widget's core logic.

The repository contains two near-duplicate React components:
  * the remote variant (`src/unnamed/part_000`): fetches public holidays,
    filters weekend-dated records, deduplicates by `(date, trimmed name)`,
    and classifies weeks with month-filtered distinct-day counts
    (`countHolidaysInWeekByMonth`) plus a dark-override style;
  * the file-import variant (`src/calendar-widget/src/components/CalendarView.tsx`):
    imports ICS events, keeps a raw per-record week count
    (`countWorkHolidaysInWeek`), and renders one badge icon per holiday record.

Calendar dates are embedded as Rata Die day numbers (day 1 = 0001-01-01 in the
proleptic Gregorian calendar), so `addDays` is `+ 1`, date comparison is `≤` on
`Nat`, JS `getDay()` is `· % 7` (0 = Sunday), and the `yyyy-MM-dd` format used
as a day key is injective, letting us compare dates directly instead of via
formatted strings.  Months are 1-based (`monthOf`), an order-isomorphic
relabeling of JS's 0-based `getMonth()` used consistently on both sides of
every comparison.
-/

namespace CalendarWidget

/-- Gregorian leap-year test. -/
def isLeap (y : Nat) : Bool :=
  y % 4 = 0 && (y % 100 != 0 || y % 400 = 0)

/-- Length of month `m` (1-based) in year `y`. -/
def daysInMonth (y m : Nat) : Nat :=
  if m = 2 then (if isLeap y then 29 else 28)
  else if m = 4 ∨ m = 6 ∨ m = 9 ∨ m = 11 then 30
  else 31

/-- Days of year `y` preceding the first day of month `m` (1-based). -/
def daysBeforeMonth (y m : Nat) : Nat :=
  [0, 31, 59, 90, 120, 151, 181, 212, 243, 273, 304, 334].getD (m - 1) 0 +
    (if 2 < m then (if isLeap y then 1 else 0) else 0)

/-- Rata Die day number of the civil date `y-m-d` (day 1 = 0001-01-01). -/
def rataDie (y m d : Nat) : Nat :=
  365 * (y - 1) + (y - 1) / 4 - (y - 1) / 100 + (y - 1) / 400 + daysBeforeMonth y m + d

/-- Weekday of a Rata Die day number, 0 = Sunday .. 6 = Saturday.
This is JS `Date.getDay()` for the same calendar date. -/
def weekdayOf (rd : Nat) : Nat := rd % 7

/-- Civil `(year, month, day)` of a Rata Die day number (months 1-based).
Standard era-based Gregorian conversion. -/
def civilFromRD (rd : Nat) : Nat × Nat × Nat :=
  let z := rd + 305
  let era := z / 146097
  let doe := z % 146097
  let yoe := (doe - doe / 1460 + doe / 36524 - doe / 146096) / 365
  let y := yoe + era * 400
  let doy := doe - (365 * yoe + yoe / 4 - yoe / 100)
  let mp := (5 * doy + 2) / 153
  let d := doy - (153 * mp + 2) / 5 + 1
  let m := if mp < 10 then mp + 3 else mp - 9
  if m ≤ 2 then (y + 1, m, d) else (y, m, d)

/-- Calendar month (1-based) of a Rata Die day number; JS `getDay.getMonth()`
up to the fixed 0-based/1-based relabeling. -/
def monthOf (rd : Nat) : Nat := (civilFromRD rd).2.1

/-- `isWeekend` from the remote adapter: the date's weekday is Sunday (0) or
Saturday (6), computed from the date itself (`new Date(dateStr).getDay()`). -/
def isWeekend (rd : Nat) : Bool :=
  weekdayOf rd == 0 || weekdayOf rd == 6

/-- `startOfWeek(startOfMonth(anchor), { weekStartsOn: 0 })`:
the Sunday on or before the first day of the anchor month. -/
def gridStart (y m : Nat) : Nat :=
  rataDie y m 1 - weekdayOf (rataDie y m 1)

/-- `endOfWeek(endOfMonth(anchor), { weekStartsOn: 0 })`:
the Saturday on or after the last day of the anchor month. -/
def gridStop (y m : Nat) : Nat :=
  rataDie y m (daysInMonth y m) + (6 - weekdayOf (rataDie y m (daysInMonth y m)))

/-- `getMonthDays`: every date from `gridStart` to `gridStop` inclusive, in
order — the `while (day <= end) { days.push(day); day = addDays(day, 1) }`
loop of both components. -/
def getMonthDays (y m : Nat) : List Nat :=
  (List.range (gridStop y m + 1 - gridStart y m)).map (fun i => gridStart y m + i)

/-- `getWeeks`'s accumulation loop: push each day onto the current chunk,
flush the chunk whenever it reaches 7 days, and after the loop push the
leftover chunk if it is nonempty. -/
def getWeeksGo : List Nat → List Nat → List (List Nat)
  | week, [] => if week.isEmpty then [] else [week]
  | week, d :: rest =>
    if (week ++ [d]).length = 7 then (week ++ [d]) :: getWeeksGo [] rest
    else getWeeksGo (week ++ [d]) rest

/-- `getWeeks` from both components: group a day list into chunks of 7,
keeping a shorter trailing chunk if the length is not a multiple of 7. -/
def getWeeks (days : List Nat) : List (List Nat) := getWeeksGo [] days

/-- Holiday kind: the closed enumeration `"regular" | "work"`. -/
inductive HolidayType where
  | regular
  | work
deriving DecidableEq

/-- Canonical holiday record; `date` is the Rata Die number of the
`yyyy-MM-dd` string. -/
structure Holiday where
  date : Nat
  name : String
  type : HolidayType
deriving DecidableEq

/-- A raw record from the remote holiday service.  `none` fields model a
missing `date` or a non-string `localName` (the dynamic checks in the
filter). -/
structure RawRecord where
  date : Option Nat
  localName : Option String
deriving DecidableEq

/-- JS `String.prototype.trim`: drop whitespace from both ends.
(Structurally recursive so that concrete instances evaluate in the kernel.) -/
def trimStr (s : String) : String :=
  String.mk (((s.data.dropWhile Char.isWhitespace).reverse.dropWhile Char.isWhitespace).reverse)

/-- The dedup key of the remote adapter: `` `${h.date}|${h.localName.trim()}` ``. -/
def rawKey (h : RawRecord) : Option Nat × String :=
  (h.date, trimStr (h.localName.getD ""))

/-- The remote adapter's validity-and-weekend filter (`data.filter`):
drop records lacking a date or a string name, and drop weekend-dated records. -/
def filteredRecords (data : List RawRecord) : List RawRecord :=
  data.filter fun h => h.date.isSome && h.localName.isSome && !isWeekend (h.date.getD 0)

/-- `uniqueHolidays`'s loop: keep a record only if its key has not been seen,
recording seen keys as it goes (the JS `Set<string>`). -/
def uniqueHolidaysGo (seen : List (Option Nat × String)) : List RawRecord → List RawRecord
  | [] => []
  | h :: t =>
    if rawKey h ∈ seen then uniqueHolidaysGo seen t
    else h :: uniqueHolidaysGo (rawKey h :: seen) t

/-- `uniqueHolidays` from the remote adapter: first occurrence of each
`(date, trimmed name)` key wins, later duplicates are dropped. -/
def uniqueHolidays (l : List RawRecord) : List RawRecord :=
  uniqueHolidaysGo [] l

/-- The remote adapter's full normalization: filter, dedup, then map to
canonical records with trimmed name and `type = regular`. -/
def parseRemote (data : List RawRecord) : List Holiday :=
  (uniqueHolidays (filteredRecords data)).map fun h =>
    { date := h.date.getD 0, name := trimStr (h.localName.getD ""), type := HolidayType.regular }

/-- Message shown for the blocked country code. -/
def dataUnavailableMsg : String :=
  "Holiday data for India is not available from Nager API."

/-- Message shown when the remote fetch or parse fails. -/
def fetchFailedMsg : String :=
  "Failed to load holiday data."

/-- Post-state of one run of the remote `fetchHolidays` effect. -/
structure RemoteFetchOutcome where
  holidays : List Holiday
  errorMessage : Option String
  requested : Bool
deriving DecidableEq

/-- One run of `fetchHolidays`: the blocked country code `"IN"` short-circuits
before any network request; otherwise `remote = none` models a network/parse
failure and `remote = some data` a successful response. -/
def fetchHolidaysStep (countryCode : String) (remote : Option (List RawRecord)) :
    RemoteFetchOutcome :=
  if countryCode = "IN" then
    { holidays := [], errorMessage := some dataUnavailableMsg, requested := false }
  else
    match remote with
    | none => { holidays := [], errorMessage := some fetchFailedMsg, requested := true }
    | some data => { holidays := parseRemote data, errorMessage := none, requested := true }

/-- One parsed ICS `VEVENT`: a start date and an optional `SUMMARY`
(`none` for an absent summary, `some ""` for an empty one — both falsy in JS). -/
structure ICSEvent where
  date : Nat
  summary : Option String
deriving DecidableEq

/-- The import adapter's mapping of events to holidays:
`name = event.summary || "Unnamed Event"`, `type` always `regular`, no dedup. -/
def parseICSEvents (evs : List ICSEvent) : List Holiday :=
  evs.map fun e =>
    { date := e.date
      name := match e.summary with
        | none => "Unnamed Event"
        | some s => if s = "" then "Unnamed Event" else s
      type := HolidayType.regular }

/-- Post-state of one run of `handleICSFile`. -/
structure ImportOutcome where
  holidays : List Holiday
  showOnlyHolidays : Bool
  alerted : Bool
deriving DecidableEq

/-- One run of `handleICSFile`: `parsed = none` models `ICAL.parse` throwing —
the catch branch only alerts, leaving the holiday set and the filter untouched;
a successful parse replaces the set wholesale and resets the filter. -/
def handleICSFileStep (prev : List Holiday) (prevFilter : Bool)
    (parsed : Option (List ICSEvent)) : ImportOutcome :=
  match parsed with
  | none => { holidays := prev, showOnlyHolidays := prevFilter, alerted := true }
  | some evs =>
    { holidays := parseICSEvents evs, showOnlyHolidays := false, alerted := false }

/-- Predicate of `holidays.filter` inside the week counters: the record sits on
day `d` and has kind `t`. -/
def holidayMatches (d : Nat) (t : HolidayType) (h : Holiday) : Bool :=
  decide (h.date = d ∧ h.type = t)

/-- The loop of `countHolidaysInWeekByMonth` (remote variant): walk the week,
skip days outside the rendered month, and record each day carrying at least one
matching holiday in a set of dates (`Set.add`, modeled as cons-if-absent — the
set is only ever observed through `size` and membership). -/
def cHWBMGo (holidays : List Holiday) (t : HolidayType) (m : Nat) :
    List Nat → List Nat → List Nat
  | uniq, [] => uniq
  | uniq, d :: rest =>
    if monthOf d = m then
      if 0 < (holidays.filter (holidayMatches d t)).length then
        cHWBMGo holidays t m (if d ∈ uniq then uniq else d :: uniq) rest
      else cHWBMGo holidays t m uniq rest
    else cHWBMGo holidays t m uniq rest

/-- `countHolidaysInWeekByMonth` from the remote variant: the number of
distinct dates of `week` that lie in rendered month `m` and carry at least one
holiday of kind `t`. -/
def countHolidaysInWeekByMonth (holidays : List Holiday) (week : List Nat)
    (t : HolidayType) (m : Nat) : Nat :=
  (cHWBMGo holidays t m [] week).length

/-- `countWorkHolidaysInWeek` from the file-import variant: a raw
holiday-record count over the week's days, with no month filter and no
per-day deduplication. -/
def countWorkHolidaysInWeek (holidays : List Holiday) (week : List Nat) : Nat :=
  week.foldl
    (fun count d =>
      count + (holidays.filter (holidayMatches d HolidayType.work)).length) 0

/-- The week-level class string of the remote variant, built exactly as the
`weekClass` variable: base classes plus the first matching rule of the
priority chain. -/
def weekClassStr (workCount regularCount : Nat) : String :=
  "mb-1 rounded " ++
    (if 2 ≤ regularCount then "bg-gray-600 text-white "
     else if 1 < workCount then "bg-green-200 "
     else if workCount = 1 then "border-2 border-green-400 "
     else if regularCount = 1 then "border-2 border-gray-300 "
     else "")

/-- `dayHolidays` of the remote variant: holidays on day `d`, but only when
`d` belongs to the rendered month (`isCurrentMonth ? ... : []`). -/
def dayHolidaysOf (holidays : List Holiday) (m d : Nat) : List Holiday :=
  if monthOf d = m then holidays.filter (fun h => decide (h.date = d)) else []

/-- Render output for one day cell of the remote variant. -/
structure DayCellView where
  bg : String
  text : String
  badge : String
  names : List String
deriving DecidableEq

/-- One day cell of the remote variant.  `none` is the bare `<div/>` emitted
when the "show only holidays" filter suppresses a holiday-free day.  `today`
is the ambient current date, threaded in explicitly. -/
def renderDayRemote (holidays : List Holiday) (today m : Nat)
    (overrideDark showOnly : Bool) (d : Nat) : Option DayCellView :=
  let dayHolidays := dayHolidaysOf holidays m d
  if showOnly ∧ dayHolidays.length = 0 then none
  else
    let hasWork := dayHolidays.any fun h => decide (h.type = HolidayType.work)
    let hasRegular := dayHolidays.any fun h => decide (h.type = HolidayType.regular)
    some
      { bg :=
          if ¬overrideDark then
            if d = today then "bg-blue-300"
            else if hasWork then "bg-green-300"
            else if hasRegular then "bg-yellow-200"
            else ""
          else ""
        text :=
          if overrideDark then "text-white"
          else if monthOf d = m then "text-gray-900"
          else "text-gray-400"
        badge :=
          if 0 < dayHolidays.length then
            if hasWork then "🏢" else if hasRegular then "🎉" else ""
          else ""
        names := dayHolidays.map (·.name) }

/-- Render output for one week row of the remote variant. -/
structure WeekView where
  workCount : Nat
  regularCount : Nat
  weekClass : String
  cells : List (Option DayCellView)
deriving DecidableEq

/-- One week row of the remote variant: month-filtered distinct-day counts,
the priority-chain class, and the per-day cells with the dark override
(`regularCount >= 2`) threaded into every cell. -/
def renderWeekRemote (holidays : List Holiday) (today m : Nat) (showOnly : Bool)
    (week : List Nat) : WeekView :=
  { workCount := countHolidaysInWeekByMonth holidays week HolidayType.work m
    regularCount := countHolidaysInWeekByMonth holidays week HolidayType.regular m
    weekClass :=
      weekClassStr (countHolidaysInWeekByMonth holidays week HolidayType.work m)
        (countHolidaysInWeekByMonth holidays week HolidayType.regular m)
    cells :=
      week.map
        (renderDayRemote holidays today m
          (decide (2 ≤ countHolidaysInWeekByMonth holidays week HolidayType.regular m))
          showOnly) }

/-- One month panel of the remote variant: the 7-day rows of the month grid,
each classified by `renderWeekRemote` against the anchor month `m`. -/
def renderMonthRemote (holidays : List Holiday) (today : Nat) (showOnly : Bool)
    (y m : Nat) : List WeekView :=
  (getWeeks (getMonthDays y m)).map (renderWeekRemote holidays today m showOnly)

/-- The badge line of the file-import variant: one icon per holiday record,
joined with spaces (`dayHolidays.map(...).join(" ")`). -/
def dayBadgeImport (dayHolidays : List Holiday) : String :=
  if 0 < dayHolidays.length then
    String.intercalate " "
      (dayHolidays.map fun h => if h.type = HolidayType.work then "🏢" else "🎉")
  else ""

/-- The initial mock holiday set of the file-import variant. -/
def mockHolidays : List Holiday :=
  [{ date := rataDie 2025 6 10, name := "Company Retreat", type := HolidayType.work },
   { date := rataDie 2025 6 10, name := "National Day", type := HolidayType.regular },
   { date := rataDie 2025 7 4, name := "Independence Day", type := HolidayType.regular }]

/-! ### Lemmas about `getWeeks` -/

theorem getWeeksGo_flatten (rest : List Nat) : ∀ week,
    (getWeeksGo week rest).flatten = week ++ rest := by
  induction rest with
  | nil =>
    intro week
    rw [getWeeksGo]
    split
    next h => simp [List.isEmpty_iff.mp h]
    next h => simp
  | cons d rest ih =>
    intro week
    rw [getWeeksGo]
    split
    next h7 => simp [ih]
    next h7 => simp [ih]

theorem getWeeksGo_chunk_bounds (rest : List Nat) : ∀ week, week.length < 7 →
    ∀ c ∈ getWeeksGo week rest, 0 < c.length ∧ c.length ≤ 7 := by
  induction rest with
  | nil =>
    intro week hw c hc
    rw [getWeeksGo] at hc
    split at hc
    next => simp at hc
    next h =>
      simp at hc
      have hne : week ≠ [] := by
        intro e
        rw [e] at h
        simp at h
      rw [hc]
      exact ⟨List.length_pos.mpr hne, le_of_lt hw⟩
  | cons d rest ih =>
    intro week hw c hc
    rw [getWeeksGo] at hc
    split at hc
    next h7 =>
      rcases List.mem_cons.mp hc with hc | hc
      · rw [hc, h7]
        omega
      · exact ih [] (by simp) c hc
    next h7 =>
      have hlen : (week ++ [d]).length < 7 := by
        simp only [List.length_append, List.length_cons, List.length_nil] at h7 ⊢
        omega
      exact ih (week ++ [d]) hlen c hc

theorem getWeeksGo_dropLast (rest : List Nat) : ∀ week, week.length < 7 →
    ∀ c ∈ (getWeeksGo week rest).dropLast, c.length = 7 := by
  induction rest with
  | nil =>
    intro week hw c hc
    rw [getWeeksGo] at hc
    split at hc <;> simp at hc
  | cons d rest ih =>
    intro week hw c hc
    rw [getWeeksGo] at hc
    split at hc
    next h7 =>
      cases hgo : getWeeksGo [] rest with
      | nil =>
        rw [hgo] at hc
        simp at hc
      | cons c2 cs =>
        rw [hgo] at hc
        simp only [List.dropLast] at hc
        rcases List.mem_cons.mp hc with hc | hc
        · rw [hc]
          exact h7
        · refine ih [] (by simp) c ?_
          rw [hgo]
          exact hc
    next h7 =>
      have hlen : (week ++ [d]).length < 7 := by
        simp only [List.length_append, List.length_cons, List.length_nil] at h7 ⊢
        omega
      exact ih (week ++ [d]) hlen c hc

theorem getWeeksGo_ne_nil (rest : List Nat) : ∀ week, week ≠ [] ∨ rest ≠ [] →
    getWeeksGo week rest ≠ [] := by
  induction rest with
  | nil =>
    intro week h
    rcases h with h | h
    · rw [getWeeksGo]
      split
      next he => exact absurd (List.isEmpty_iff.mp he) h
      next => simp
    · exact absurd rfl h
  | cons d rest ih =>
    intro week h
    rw [getWeeksGo]
    split
    next => simp
    next => exact ih (week ++ [d]) (Or.inl (by simp))

theorem getWeeksGo_chunks_of_mod (rest : List Nat) : ∀ week, week.length < 7 →
    (week.length + rest.length) % 7 = 0 →
    ∀ c ∈ getWeeksGo week rest, c.length = 7 := by
  induction rest with
  | nil =>
    intro week hw hmod c hc
    have hz : week.length = 0 := by
      simp only [List.length_nil, Nat.add_zero] at hmod
      omega
    rw [getWeeksGo] at hc
    rw [if_pos (by simp [List.length_eq_zero.mp hz])] at hc
    simp at hc
  | cons d rest ih =>
    intro week hw hmod c hc
    rw [getWeeksGo] at hc
    split at hc
    next h7 =>
      rcases List.mem_cons.mp hc with hc | hc
      · rw [hc, h7]
      · refine ih [] (by simp) ?_ c hc
        simp only [List.length_append, List.length_cons, List.length_nil] at h7 hmod ⊢
        omega
    next h7 =>
      refine ih (week ++ [d]) ?_ ?_ c hc
      · simp only [List.length_append, List.length_cons, List.length_nil] at h7 ⊢
        omega
      · simp only [List.length_append, List.length_cons, List.length_nil] at hmod ⊢
        omega

theorem getWeeksGo_last_len (rest : List Nat) : ∀ week, week.length < 7 →
    (week.length + rest.length) % 7 ≠ 0 →
    ((getWeeksGo week rest).getLast?.getD []).length = (week.length + rest.length) % 7 := by
  induction rest with
  | nil =>
    intro week hw hmod
    simp only [List.length_nil, Nat.add_zero] at hmod ⊢
    have hne : ¬week.isEmpty = true := by
      intro he
      rw [List.isEmpty_iff.mp he] at hmod
      simp at hmod
    rw [getWeeksGo, if_neg hne]
    simp [Nat.mod_eq_of_lt hw]
  | cons d rest ih =>
    intro week hw hmod
    rw [getWeeksGo]
    split
    next h7 =>
      have hmod' : (0 + rest.length) % 7 ≠ 0 := by
        simp only [List.length_append, List.length_cons, List.length_nil] at h7
        simp only [List.length_cons] at hmod
        omega
      have hne : getWeeksGo [] rest ≠ [] := by
        refine getWeeksGo_ne_nil rest [] (Or.inr ?_)
        intro he
        rw [he] at hmod'
        simp at hmod'
      cases hgo : getWeeksGo [] rest with
      | nil => exact absurd hgo hne
      | cons c2 cs =>
        rw [List.getLast?_cons_cons]
        have := ih [] (by simp) hmod'
        rw [hgo] at this
        simp only [List.length_nil, Nat.zero_add] at this ⊢
        rw [this]
        simp only [List.length_append, List.length_cons, List.length_nil] at h7
        simp only [List.length_cons]
        omega
    next h7 =>
      have hlen : (week ++ [d]).length < 7 := by
        simp only [List.length_append, List.length_cons, List.length_nil] at h7 ⊢
        omega
      have hmod' : ((week ++ [d]).length + rest.length) % 7 ≠ 0 := by
        simp only [List.length_append, List.length_cons, List.length_nil]
        simp only [List.length_cons] at hmod
        omega
      have hrec := ih (week ++ [d]) hlen hmod'
      rw [hrec]
      simp only [List.length_append, List.length_cons, List.length_nil]
      omega

example : countHolidaysInWeekByMonth mockHolidays
    [739410, 739411, 739412, 739413, 739414, 739415, 739416] HolidayType.work 6 = 1 := by decide
example : countHolidaysInWeekByMonth mockHolidays
    [739410, 739411, 739412, 739413, 739414, 739415, 739416] HolidayType.regular 6 = 1 := by decide
example : countWorkHolidaysInWeek
    [{ date := 739412, name := "A", type := HolidayType.work },
     { date := 739412, name := "B", type := HolidayType.work }]
    [739410, 739411, 739412, 739413, 739414, 739415, 739416] = 2 := by decide
example : dayBadgeImport (mockHolidays.filter fun h => decide (h.date = 739412)) = "🏢 🎉" := by decide
example : renderDayRemote mockHolidays 739400 6 false false 739412 =
    some { bg := "bg-green-300", text := "text-gray-900", badge := "🏢",
           names := ["Company Retreat", "National Day"] } := by decide
example : parseRemote [{ date := some 739412, localName := none }] = [] := by decide
example : parseRemote [{ date := some 739412, localName := some " Day " }] =
    [{ date := 739412, name := "Day", type := HolidayType.regular }] := by decide
example : parseRemote [{ date := some 739416, localName := some "Sat" }] = [] := by decide
example : weekdayOf (rataDie 2025 6 10) = 2 := by decide
example : monthOf (rataDie 2025 6 10) = 6 := by decide
example : monthOf (rataDie 2025 7 4) = 7 := by decide
example : monthOf (rataDie 2024 2 29) = 2 := by decide
example : monthOf (rataDie 2024 12 31) = 12 := by decide
example : monthOf (rataDie 2026 1 1) = 1 := by decide
example : getWeeks [1,2,3,4,5,6,7,8] = [[1,2,3,4,5,6,7],[8]] := by decide

/-! ### Claim C6 -/

/-- C6 (amended): for every input list whose length is a multiple of 7,
`getWeeks` splits it into consecutive 7-element chunks in the original order.
The second half of the claim — that a non-multiple-of-7 input fails — is
refuted by `claim_C6_cx_returns_short_chunk`; `getWeeks` instead returns a
shorter final chunk. -/
theorem claim_C6_toWeeks_multiple_of_seven (l : List Nat) (h : l.length % 7 = 0) :
    (∀ c ∈ getWeeks l, c.length = 7) ∧ (getWeeks l).flatten = l := by
  constructor
  · exact getWeeksGo_chunks_of_mod l [] (by simp) (by simpa using h)
  · simpa using getWeeksGo_flatten l []

/-- C6 counterexample: on an 8-element input (length not a multiple of 7),
`getWeeks` does not fail — it returns a result whose final chunk is the
leftover single element, contradicting "fails rather than returning a
result". -/
theorem claim_C6_cx_returns_short_chunk :
    getWeeks [1, 2, 3, 4, 5, 6, 7, 8] = [[1, 2, 3, 4, 5, 6, 7], [8]] := by decide

/-- C6 witness: the amended theorem applied to the concrete 14-element list. -/
theorem claim_C6_witness :
    (getWeeks (List.range 14)).flatten = List.range 14 ∧
    ([0, 1, 2, 3, 4, 5, 6] : List Nat).length = 7 :=
  ⟨(claim_C6_toWeeks_multiple_of_seven (List.range 14) (by decide)).2,
   (claim_C6_toWeeks_multiple_of_seven (List.range 14) (by decide)).1
     [0, 1, 2, 3, 4, 5, 6] (by decide)⟩

/-! ### Claim C10 -/

/-- C10: `getWeeks` is total and lossless — concatenating its chunks yields
the original list; every chunk is nonempty and at most 7 long; every chunk
except possibly the last has length exactly 7; and a non-multiple-of-7 input
yields a shorter final chunk (of length `l.length % 7`) rather than a
failure. -/
theorem claim_C10_toWeeks_total_lossless (l : List Nat) :
    (getWeeks l).flatten = l ∧
    (∀ c ∈ (getWeeks l).dropLast, c.length = 7) ∧
    (∀ c ∈ getWeeks l, 0 < c.length ∧ c.length ≤ 7) ∧
    (l.length % 7 ≠ 0 →
      ((getWeeks l).getLast?.getD []).length = l.length % 7) := by
  refine ⟨by simpa using getWeeksGo_flatten l [],
    getWeeksGo_dropLast l [] (by simp),
    getWeeksGo_chunk_bounds l [] (by simp),
    fun h => ?_⟩
  have := getWeeksGo_last_len l [] (by simp) (by simpa using h)
  simpa using this

/-- C10 witness: the theorem applied to the concrete 10-element list, whose
final chunk has the 3 leftover elements. -/
theorem claim_C10_witness :
    (getWeeks (List.range 10)).flatten = List.range 10 ∧
    ([0, 1, 2, 3, 4, 5, 6] : List Nat).length = 7 ∧
    (0 < ([7, 8, 9] : List Nat).length ∧ ([7, 8, 9] : List Nat).length ≤ 7) ∧
    ((getWeeks (List.range 10)).getLast?.getD []).length = (List.range 10).length % 7 :=
  ⟨(claim_C10_toWeeks_total_lossless (List.range 10)).1,
   (claim_C10_toWeeks_total_lossless (List.range 10)).2.1 [0, 1, 2, 3, 4, 5, 6] (by decide),
   (claim_C10_toWeeks_total_lossless (List.range 10)).2.2.1 [7, 8, 9] (by decide),
   (claim_C10_toWeeks_total_lossless (List.range 10)).2.2.2 (by decide)⟩

/-! ### Claim C5 -/

theorem daysInMonth_pos (y m : Nat) : 1 ≤ daysInMonth y m := by
  unfold daysInMonth
  split
  · split <;> omega
  · split <;> omega

theorem som_le_eom (y m : Nat) : rataDie y m 1 ≤ rataDie y m (daysInMonth y m) := by
  have := daysInMonth_pos y m
  unfold rataDie
  omega

theorem mem_getMonthDays (y m x : Nat) :
    x ∈ getMonthDays y m ↔
      ∃ i, i < gridStop y m + 1 - gridStart y m ∧ x = gridStart y m + i := by
  simp [getMonthDays, List.mem_map, List.mem_range, eq_comm]

/-- C5 (amended): for every anchor month, `getMonthDays` returns an ordered
sequence of dates whose length is a multiple of 7 (a whole number of weeks, not
always 42 — see `claim_C5_cx_not_always_42`): it starts at the Sunday on or
before the first of the month, ends at the Saturday on or after the last of
the month, and contains every date of the anchor's month. -/
theorem claim_C5_month_grid_shape (y m : Nat) :
    (getMonthDays y m).length % 7 = 0 ∧
    (getMonthDays y m).Pairwise (· < ·) ∧
    (gridStart y m ∈ getMonthDays y m ∧ (∀ x ∈ getMonthDays y m, gridStart y m ≤ x) ∧
      weekdayOf (gridStart y m) = 0 ∧ gridStart y m ≤ rataDie y m 1 ∧
      rataDie y m 1 < gridStart y m + 7) ∧
    (gridStop y m ∈ getMonthDays y m ∧ (∀ x ∈ getMonthDays y m, x ≤ gridStop y m) ∧
      weekdayOf (gridStop y m) = 6 ∧ rataDie y m (daysInMonth y m) ≤ gridStop y m ∧
      gridStop y m < rataDie y m (daysInMonth y m) + 7) ∧
    (∀ d, 1 ≤ d → d ≤ daysInMonth y m → rataDie y m d ∈ getMonthDays y m) := by
  have hse := som_le_eom y m
  refine ⟨?_, ?_, ⟨?_, ?_, ?_, ?_, ?_⟩, ⟨?_, ?_, ?_, ?_, ?_⟩, ?_⟩
  · simp only [getMonthDays, List.length_map, List.length_range, gridStart, gridStop,
      weekdayOf]
    omega
  · exact List.pairwise_map.mpr ((List.pairwise_lt_range _).imp fun h => by omega)
  · rw [mem_getMonthDays]
    refine ⟨0, ?_, by omega⟩
    simp only [gridStart, gridStop, weekdayOf]
    omega
  · intro x hx
    rcases (mem_getMonthDays y m x).mp hx with ⟨i, hi, rfl⟩
    omega
  · simp only [gridStart, weekdayOf]
    omega
  · simp only [gridStart, weekdayOf]
    omega
  · simp only [gridStart, weekdayOf]
    omega
  · rw [mem_getMonthDays]
    refine ⟨gridStop y m - gridStart y m, ?_, ?_⟩ <;>
      simp only [gridStart, gridStop, weekdayOf] <;> omega
  · intro x hx
    rcases (mem_getMonthDays y m x).mp hx with ⟨i, hi, rfl⟩
    simp only [gridStart, gridStop, weekdayOf] at hi ⊢
    omega
  · simp only [gridStop, weekdayOf]
    omega
  · simp only [gridStop, weekdayOf]
    omega
  · simp only [gridStop, weekdayOf]
    omega
  · intro d hd1 hd2
    have hlow : rataDie y m 1 ≤ rataDie y m d := by
      unfold rataDie
      omega
    have hhigh : rataDie y m d ≤ rataDie y m (daysInMonth y m) := by
      unfold rataDie
      omega
    rw [mem_getMonthDays]
    refine ⟨rataDie y m d - gridStart y m, ?_, ?_⟩ <;>
      simp only [gridStart, gridStop, weekdayOf] at hlow hhigh ⊢ <;> omega

/-- C5 counterexample: February 2026 starts on a Sunday and has 28 days, so
its grid has 28 dates, not the claimed "exactly 42". -/
theorem claim_C5_cx_not_always_42 : (getMonthDays 2026 2).length = 28 := by decide

/-- C5 witness: the shape theorem applied to June 2025, plus the day-coverage
conjunct discharged at June 10. -/
theorem claim_C5_witness :
    (getMonthDays 2025 6).length % 7 = 0 ∧
    rataDie 2025 6 10 ∈ getMonthDays 2025 6 :=
  ⟨(claim_C5_month_grid_shape 2025 6).1,
   (claim_C5_month_grid_shape 2025 6).2.2.2.2 10 (by decide) (by decide)⟩

/-! ### Claim C2 -/

theorem cHWBMGo_spec (holidays : List Holiday) (t : HolidayType) (m : Nat)
    (week : List Nat) : ∀ uniq : List Nat, uniq.Nodup →
    (cHWBMGo holidays t m uniq week).Nodup ∧
    (∀ x, x ∈ cHWBMGo holidays t m uniq week ↔
      x ∈ uniq ∨ (x ∈ week ∧ monthOf x = m ∧
        0 < (holidays.filter (holidayMatches x t)).length)) := by
  induction week with
  | nil =>
    intro uniq hu
    refine ⟨by simpa [cHWBMGo] using hu, fun x => by simp [cHWBMGo]⟩
  | cons d rest ih =>
    intro uniq hu
    by_cases h1 : monthOf d = m
    · by_cases h2 : 0 < (holidays.filter (holidayMatches d t)).length
      · rw [cHWBMGo, if_pos h1, if_pos h2]
        by_cases h3 : d ∈ uniq
        · rw [if_pos h3]
          obtain ⟨hnd, hm⟩ := ih uniq hu
          refine ⟨hnd, fun x => ?_⟩
          rw [hm x]
          constructor
          · rintro (hx | ⟨hx, hrest⟩)
            · exact Or.inl hx
            · exact Or.inr ⟨List.mem_cons_of_mem _ hx, hrest⟩
          · rintro (hx | ⟨hx, hrest⟩)
            · exact Or.inl hx
            · rcases List.mem_cons.mp hx with rfl | hx
              · exact Or.inl h3
              · exact Or.inr ⟨hx, hrest⟩
        · rw [if_neg h3]
          obtain ⟨hnd, hm⟩ := ih (d :: uniq) (List.nodup_cons.mpr ⟨h3, hu⟩)
          refine ⟨hnd, fun x => ?_⟩
          rw [hm x]
          constructor
          · rintro (hx | ⟨hx, hrest⟩)
            · rcases List.mem_cons.mp hx with rfl | hx
              · exact Or.inr ⟨List.mem_cons_self _ _, h1, h2⟩
              · exact Or.inl hx
            · exact Or.inr ⟨List.mem_cons_of_mem _ hx, hrest⟩
          · rintro (hx | ⟨hx, hrest⟩)
            · exact Or.inl (List.mem_cons_of_mem _ hx)
            · rcases List.mem_cons.mp hx with rfl | hx
              · exact Or.inl (List.mem_cons_self _ _)
              · exact Or.inr ⟨hx, hrest⟩
      · rw [cHWBMGo, if_pos h1, if_neg h2]
        obtain ⟨hnd, hm⟩ := ih uniq hu
        refine ⟨hnd, fun x => ?_⟩
        rw [hm x]
        constructor
        · rintro (hx | ⟨hx, hrest⟩)
          · exact Or.inl hx
          · exact Or.inr ⟨List.mem_cons_of_mem _ hx, hrest⟩
        · rintro (hx | ⟨hx, hrest⟩)
          · exact Or.inl hx
          · rcases List.mem_cons.mp hx with rfl | hx
            · exact absurd hrest.2 h2
            · exact Or.inr ⟨hx, hrest⟩
    · rw [cHWBMGo, if_neg h1]
      obtain ⟨hnd, hm⟩ := ih uniq hu
      refine ⟨hnd, fun x => ?_⟩
      rw [hm x]
      constructor
      · rintro (hx | ⟨hx, hrest⟩)
        · exact Or.inl hx
        · exact Or.inr ⟨List.mem_cons_of_mem _ hx, hrest⟩
      · rintro (hx | ⟨hx, hrest⟩)
        · exact Or.inl hx
        · rcases List.mem_cons.mp hx with rfl | hx
          · exact absurd hrest.1 h1
          · exact Or.inr ⟨hx, hrest⟩

/-- C2 (amended): the remote variant's `countHolidaysInWeekByMonth` is a
distinct-day count restricted to the rendered month — it equals the number of
distinct dates of the week that lie in month `m` and carry at least one
holiday of kind `t` (so two same-type holidays on one day contribute 1), and
a week whose days all lie outside the rendered month counts 0.  The
file-import variant's `countWorkHolidaysInWeek` violates this — see
`claim_C2_cx_import_raw_count`. -/
theorem claim_C2_month_filtered_distinct_day_counts (holidays : List Holiday)
    (week : List Nat) (t : HolidayType) (m : Nat) :
    countHolidaysInWeekByMonth holidays week t m =
      ((week.filter fun d =>
        decide (monthOf d = m ∧ ∃ h ∈ holidays, h.date = d ∧ h.type = t)).dedup).length ∧
    ((∀ d ∈ week, monthOf d ≠ m) → countHolidaysInWeekByMonth holidays week t m = 0) := by
  obtain ⟨hnd, hm⟩ := cHWBMGo_spec holidays t m week [] (by simp)
  constructor
  · have hmem : ∀ x, x ∈ cHWBMGo holidays t m [] week ↔
        x ∈ (week.filter fun d =>
          decide (monthOf d = m ∧ ∃ h ∈ holidays, h.date = d ∧ h.type = t)).dedup := by
      intro x
      rw [hm x, List.mem_dedup, List.mem_filter]
      simp only [decide_eq_true_eq, List.not_mem_nil, false_or]
      constructor
      · rintro ⟨hx, h1, h2⟩
        refine ⟨hx, h1, ?_⟩
        obtain ⟨a, ha⟩ := List.exists_mem_of_length_pos h2
        obtain ⟨ha1, ha2⟩ := List.mem_filter.mp ha
        exact ⟨a, ha1, by simpa [holidayMatches] using ha2⟩
      · rintro ⟨hx, h1, a, ha, hda, hta⟩
        refine ⟨hx, h1, ?_⟩
        have hmemf : a ∈ holidays.filter (holidayMatches x t) :=
          List.mem_filter.mpr ⟨ha, by simp [holidayMatches, hda, hta]⟩
        exact List.length_pos.mpr (List.ne_nil_of_mem hmemf)
    rw [countHolidaysInWeekByMonth, ← List.toFinset_card_of_nodup hnd,
      ← List.toFinset_card_of_nodup (List.nodup_dedup _)]
    congr 1
    ext a
    simp only [List.mem_toFinset]
    exact hmem a
  · intro hout
    rw [countHolidaysInWeekByMonth]
    have : cHWBMGo holidays t m [] week = [] := by
      rw [List.eq_nil_iff_forall_not_mem]
      intro x hx
      rcases (hm x).mp hx with hx' | ⟨hx', h1, _⟩
      · simp at hx'
      · exact hout x hx' h1
    rw [this]
    rfl

/-- C2 counterexample: in the file-import variant, a week containing one day
that carries two work holidays gets `countWorkHolidaysInWeek = 2` — a raw
record count, not the claimed distinct-day count (which would be 1). -/
theorem claim_C2_cx_import_raw_count :
    countWorkHolidaysInWeek
      [{ date := 739412, name := "A", type := HolidayType.work },
       { date := 739412, name := "B", type := HolidayType.work }]
      [739410, 739411, 739412, 739413, 739414, 739415, 739416] = 2 := by decide

/-- C2 witness: the amended theorem at a concrete week of June 2025 (where two
same-type records on June 10 count as one day), and the month-isolation
conjunct at a week of July days rendered against month 6. -/
theorem claim_C2_witness :
    countHolidaysInWeekByMonth
      [{ date := 739412, name := "A", type := HolidayType.work },
       { date := 739412, name := "B", type := HolidayType.work }]
      [739410, 739411, 739412, 739413, 739414, 739415, 739416] HolidayType.work 6 =
      (([739410, 739411, 739412, 739413, 739414, 739415, 739416].filter fun d =>
        decide (monthOf d = 6 ∧ ∃ h ∈
          ([{ date := 739412, name := "A", type := HolidayType.work },
            { date := 739412, name := "B", type := HolidayType.work }] : List Holiday),
          h.date = d ∧ h.type = HolidayType.work)).dedup).length ∧
    countHolidaysInWeekByMonth
      [{ date := 739412, name := "A", type := HolidayType.work },
       { date := 739412, name := "B", type := HolidayType.work }]
      [739434, 739435, 739436, 739437, 739438, 739439, 739440] HolidayType.work 6 = 0 :=
  ⟨(claim_C2_month_filtered_distinct_day_counts _ _ _ _).1,
   (claim_C2_month_filtered_distinct_day_counts _ _ _ _).2 (by decide)⟩

/-! ### Claim C1 -/

theorem renderDayRemote_override_bg (holidays : List Holiday) (today m : Nat)
    (showOnly : Bool) (d : Nat) (c : DayCellView)
    (h : renderDayRemote holidays today m true showOnly d = some c) : c.bg = "" := by
  simp only [renderDayRemote] at h
  split at h
  · exact absurd h (by simp)
  · injection h with h'
    subst h'
    simp

/-- C1: the remote variant's week highlight is decided in strict priority
order with first match winning — dark override when the regular-holiday day
count is ≥ 2 (which also blanks every rendered day cell's background in that
week, today and work days included), else the filled work highlight when the
work count is > 1, else the work outline when it is 1, else the lighter
outline when the regular count is 1, else no highlight.  In particular a
week with 2 regular-holiday days and 3 work-holiday days falls under the
first conjunct and gets the dark override. -/
theorem claim_C1_week_priority_order (holidays : List Holiday) (today m : Nat)
    (showOnly : Bool) (week : List Nat) :
    (2 ≤ (renderWeekRemote holidays today m showOnly week).regularCount →
      (renderWeekRemote holidays today m showOnly week).weekClass =
        "mb-1 rounded bg-gray-600 text-white " ∧
      ∀ c : DayCellView,
        some c ∈ (renderWeekRemote holidays today m showOnly week).cells → c.bg = "") ∧
    ((renderWeekRemote holidays today m showOnly week).regularCount < 2 →
      1 < (renderWeekRemote holidays today m showOnly week).workCount →
      (renderWeekRemote holidays today m showOnly week).weekClass =
        "mb-1 rounded bg-green-200 ") ∧
    ((renderWeekRemote holidays today m showOnly week).regularCount < 2 →
      (renderWeekRemote holidays today m showOnly week).workCount = 1 →
      (renderWeekRemote holidays today m showOnly week).weekClass =
        "mb-1 rounded border-2 border-green-400 ") ∧
    ((renderWeekRemote holidays today m showOnly week).regularCount = 1 →
      (renderWeekRemote holidays today m showOnly week).workCount = 0 →
      (renderWeekRemote holidays today m showOnly week).weekClass =
        "mb-1 rounded border-2 border-gray-300 ") ∧
    ((renderWeekRemote holidays today m showOnly week).regularCount = 0 →
      (renderWeekRemote holidays today m showOnly week).workCount = 0 →
      (renderWeekRemote holidays today m showOnly week).weekClass = "mb-1 rounded ") := by
  refine ⟨?_, ?_, ?_, ?_, ?_⟩
  · intro hrc
    simp only [renderWeekRemote] at hrc
    constructor
    · simp only [renderWeekRemote, weekClassStr]
      rw [if_pos hrc]
      decide
    · intro c hc
      simp only [renderWeekRemote] at hc
      rw [decide_eq_true hrc] at hc
      rcases List.mem_map.mp hc with ⟨d, _, hd⟩
      exact renderDayRemote_override_bg holidays today m showOnly d c hd
  · intro h1 h2
    simp only [renderWeekRemote] at h1 h2 ⊢
    simp only [weekClassStr]
    rw [if_neg (by omega), if_pos h2]
    decide
  · intro h1 h2
    simp only [renderWeekRemote] at h1 h2 ⊢
    simp only [weekClassStr]
    rw [if_neg (by omega), if_neg (by omega), if_pos h2]
    decide
  · intro h1 h2
    simp only [renderWeekRemote] at h1 h2 ⊢
    simp only [weekClassStr]
    rw [if_neg (by omega), if_neg (by omega), if_neg (by omega), if_pos h1]
    decide
  · intro h1 h2
    simp only [renderWeekRemote] at h1 h2 ⊢
    simp only [weekClassStr]
    rw [if_neg (by omega), if_neg (by omega), if_neg (by omega), if_neg (by omega)]
    decide

/-- C1 witness: the week June 8–14, 2025 with regular holidays on June 9 and
10 and work holidays on June 11–13 (2 regular days, 3 work days) gets the dark
override, and the rendered June 11 cell — a work-holiday day — has a blank
background. -/
theorem claim_C1_witness :
    (renderWeekRemote
      [{ date := 739411, name := "Reg A", type := HolidayType.regular },
       { date := 739412, name := "Reg B", type := HolidayType.regular },
       { date := 739413, name := "Work C", type := HolidayType.work },
       { date := 739414, name := "Work D", type := HolidayType.work },
       { date := 739415, name := "Work E", type := HolidayType.work }]
      739412 6 false
      [739410, 739411, 739412, 739413, 739414, 739415, 739416]).weekClass =
      "mb-1 rounded bg-gray-600 text-white " ∧
    (DayCellView.mk "" "text-white" "🏢" ["Work C"]).bg = "" :=
  ⟨((claim_C1_week_priority_order
      [{ date := 739411, name := "Reg A", type := HolidayType.regular },
       { date := 739412, name := "Reg B", type := HolidayType.regular },
       { date := 739413, name := "Work C", type := HolidayType.work },
       { date := 739414, name := "Work D", type := HolidayType.work },
       { date := 739415, name := "Work E", type := HolidayType.work }]
      739412 6 false
      [739410, 739411, 739412, 739413, 739414, 739415, 739416]).1 (by decide)).1,
   ((claim_C1_week_priority_order
      [{ date := 739411, name := "Reg A", type := HolidayType.regular },
       { date := 739412, name := "Reg B", type := HolidayType.regular },
       { date := 739413, name := "Work C", type := HolidayType.work },
       { date := 739414, name := "Work D", type := HolidayType.work },
       { date := 739415, name := "Work E", type := HolidayType.work }]
      739412 6 false
      [739410, 739411, 739412, 739413, 739414, 739415, 739416]).1 (by decide)).2
     (DayCellView.mk "" "text-white" "🏢" ["Work C"]) (by decide)⟩

/-! ### Claim C3 -/

/-- C3 (amended): in the remote variant, for a day cell of a week not in
override mode, today's background wins regardless of holidays, else any
work-type holiday wins over regular-type, and a day carrying both types shows
exactly the work badge icon, never both.  The file-import variant instead
renders one icon per record — see `claim_C3_cx_import_shows_both_icons`. -/
theorem claim_C3_day_precedence (holidays : List Holiday) (today m : Nat)
    (showOnly : Bool) (d : Nat) (c : DayCellView)
    (h : renderDayRemote holidays today m false showOnly d = some c) :
    (d = today → c.bg = "bg-blue-300") ∧
    (d ≠ today →
      (dayHolidaysOf holidays m d).any (fun x => decide (x.type = HolidayType.work)) = true →
      c.bg = "bg-green-300") ∧
    (d ≠ today →
      (dayHolidaysOf holidays m d).any (fun x => decide (x.type = HolidayType.work)) = false →
      (dayHolidaysOf holidays m d).any (fun x => decide (x.type = HolidayType.regular)) = true →
      c.bg = "bg-yellow-200") ∧
    ((dayHolidaysOf holidays m d).any (fun x => decide (x.type = HolidayType.work)) = true →
      (dayHolidaysOf holidays m d).any (fun x => decide (x.type = HolidayType.regular)) = true →
      c.badge = "🏢" ∧ c.badge ≠ "🎉") := by
  simp only [renderDayRemote] at h
  split at h
  · exact absurd h (by simp)
  · injection h with h'
    subst h'
    refine ⟨?_, ?_, ?_, ?_⟩
    · intro hd
      simp [hd]
    · intro hd hw
      simp [hd, hw]
    · intro hd hw hr
      simp [hd, hw, hr]
    · intro hw hr
      obtain ⟨x, hx, _⟩ := List.any_eq_true.mp hw
      have hlen : 0 < (dayHolidaysOf holidays m d).length :=
        List.length_pos.mpr (List.ne_nil_of_mem hx)
      constructor
      · simp [hw, hlen]
      · simp [hw, hlen]

/-- C3 counterexample: on June 10, 2025 the mock data carries a work and a
regular holiday; the file-import variant's badge line shows both icons
(one per record), contradicting "exactly one icon shown per day, never
both". -/
theorem claim_C3_cx_import_shows_both_icons :
    dayBadgeImport (mockHolidays.filter fun h => decide (h.date = 739412)) = "🏢 🎉" ∧
    dayBadgeImport (mockHolidays.filter fun h => decide (h.date = 739412)) ≠ "🏢" := by
  constructor
  · decide
  · decide

/-- C3 witness: the theorem applied at June 10, 2025 against the mock data
(both holiday types on one day, today elsewhere): the cell gets the work
background and only the work badge. -/
theorem claim_C3_witness :
    renderDayRemote mockHolidays 739400 6 false false 739412 =
      some (DayCellView.mk "bg-green-300" "text-gray-900" "🏢"
        ["Company Retreat", "National Day"]) ∧
    (DayCellView.mk "bg-green-300" "text-gray-900" "🏢"
      ["Company Retreat", "National Day"]).bg = "bg-green-300" ∧
    (DayCellView.mk "bg-green-300" "text-gray-900" "🏢"
      ["Company Retreat", "National Day"]).badge = "🏢" ∧
    (DayCellView.mk "bg-green-300" "text-gray-900" "🏢"
      ["Company Retreat", "National Day"]).badge ≠ "🎉" :=
  ⟨by decide,
   (claim_C3_day_precedence mockHolidays 739400 6 false 739412 _ (by decide)).2.1
     (by decide) (by decide),
   ((claim_C3_day_precedence mockHolidays 739400 6 false 739412 _ (by decide)).2.2.2
     (by decide) (by decide)).1,
   ((claim_C3_day_precedence mockHolidays 739400 6 false 739412 _ (by decide)).2.2.2
     (by decide) (by decide)).2⟩

/-! ### Claim C9 -/

/-- C9: the "show only holidays" flag does not interfere with week
classification — for every holiday set, today, and rendered month, the two
renders differing only in the flag produce identical work counts, regular
counts, and week classes for every week row. -/
theorem claim_C9_filter_does_not_affect_counts (holidays : List Holiday)
    (today y m : Nat) :
    (renderMonthRemote holidays today true y m).map
        (fun w => (w.workCount, w.regularCount, w.weekClass)) =
      (renderMonthRemote holidays today false y m).map
        (fun w => (w.workCount, w.regularCount, w.weekClass)) := by
  rw [renderMonthRemote, renderMonthRemote, List.map_map, List.map_map]
  exact List.map_congr_left fun w _ => rfl

/-! ### Claim C4 -/

theorem mem_of_mem_uniqueHolidaysGo (l : List RawRecord) : ∀ seen x,
    x ∈ uniqueHolidaysGo seen l → x ∈ l := by
  induction l with
  | nil =>
    intro seen x hx
    simp [uniqueHolidaysGo] at hx
  | cons h t ih =>
    intro seen x hx
    rw [uniqueHolidaysGo] at hx
    split at hx
    · exact List.mem_cons_of_mem _ (ih seen x hx)
    · rcases List.mem_cons.mp hx with rfl | hx
      · exact List.mem_cons_self _ _
      · exact List.mem_cons_of_mem _ (ih _ x hx)

theorem uniqueHolidaysGo_keys (l : List RawRecord) : ∀ seen,
    (uniqueHolidaysGo seen l).Pairwise (fun a b => rawKey a ≠ rawKey b) ∧
    ∀ x ∈ uniqueHolidaysGo seen l, rawKey x ∉ seen := by
  induction l with
  | nil =>
    intro seen
    simp [uniqueHolidaysGo]
  | cons h t ih =>
    intro seen
    rw [uniqueHolidaysGo]
    split
    next hin => exact ih seen
    next hin =>
      obtain ⟨hp, hs⟩ := ih (rawKey h :: seen)
      constructor
      · rw [List.pairwise_cons]
        refine ⟨fun y hy => ?_, hp⟩
        intro he
        apply hs y hy
        rw [← he]
        exact List.mem_cons_self _ _
      · intro x hx
        rcases List.mem_cons.mp hx with rfl | hx
        · exact hin
        · intro hmem
          exact hs x hx (List.mem_cons_of_mem _ hmem)

theorem mem_uniqueHolidaysGo_iff (l : List RawRecord) : ∀ seen x,
    x ∈ uniqueHolidaysGo seen l ↔
      (rawKey x ∉ seen ∧ l.find? (fun y => decide (rawKey y = rawKey x)) = some x) := by
  induction l with
  | nil =>
    intro seen x
    simp [uniqueHolidaysGo]
  | cons h t ih =>
    intro seen x
    rw [uniqueHolidaysGo]
    by_cases hk : rawKey h = rawKey x
    · rw [List.find?_cons_of_pos _ (by simp [hk])]
      split
      next hin =>
        rw [ih seen x]
        constructor
        · rintro ⟨hns, _⟩
          exact absurd (hk ▸ hin) hns
        · rintro ⟨hns, _⟩
          exact absurd (hk ▸ hin) hns
      next hin =>
        constructor
        · intro hx
          rcases List.mem_cons.mp hx with rfl | hx
          · exact ⟨hin, rfl⟩
          · obtain ⟨hns, _⟩ := (ih _ x).mp hx
            exact absurd (by rw [← hk]; exact List.mem_cons_self _ _) hns
        · rintro ⟨hns, hf⟩
          injection hf with hf
          rw [hf]
          exact List.mem_cons_self _ _
    · rw [List.find?_cons_of_neg _ (by simp [hk])]
      split
      next hin =>
        rw [ih seen x]
      next hin =>
        constructor
        · intro hx
          rcases List.mem_cons.mp hx with rfl | hx
          · exact absurd rfl hk
          · obtain ⟨hns, hf⟩ := (ih _ x).mp hx
            exact ⟨fun hm => hns (List.mem_cons_of_mem _ hm), hf⟩
        · rintro ⟨hns, hf⟩
          refine List.mem_cons_of_mem _ ((ih _ x).mpr ⟨?_, hf⟩)
          intro hm
          rcases List.mem_cons.mp hm with he | hm'
          · exact hk he.symm
          · exact hns hm'

theorem uniqueHolidaysGo_id (l : List RawRecord) : ∀ seen,
    l.Pairwise (fun a b => rawKey a ≠ rawKey b) →
    (∀ x ∈ l, rawKey x ∉ seen) →
    uniqueHolidaysGo seen l = l := by
  induction l with
  | nil =>
    intro seen _ _
    rfl
  | cons h t ih =>
    intro seen hp hs
    rw [uniqueHolidaysGo, if_neg (hs h (List.mem_cons_self _ _))]
    congr 1
    refine ih _ (List.pairwise_cons.mp hp).2 ?_
    intro x hx hm
    rcases List.mem_cons.mp hm with he | hm'
    · exact (List.pairwise_cons.mp hp).1 x hx he.symm
    · exact hs x (List.mem_cons_of_mem _ hx) hm'

theorem date_isSome_of_mem_filtered (data : List RawRecord) (x : RawRecord)
    (hx : x ∈ filteredRecords data) : x.date.isSome = true := by
  have h := (List.mem_filter.mp hx).2
  simp only [Bool.and_eq_true] at h
  exact h.1.1

/-- C4 (amended): the remote adapter's normalization leaves no two records
with the same `(date, trimmed name)` pair, keeps the first occurrence of each
key (a record survives `uniqueHolidays` exactly when it is what `find?`
locates for its own key), and is idempotent.  The file-import adapter performs
no deduplication at all — see `claim_C4_cx_import_keeps_duplicates`. -/
theorem claim_C4_remote_dedup (data l : List RawRecord) (x : RawRecord) :
    (parseRemote data).Pairwise (fun a b => ¬(a.date = b.date ∧ a.name = b.name)) ∧
    (x ∈ uniqueHolidays l ↔
      l.find? (fun y => decide (rawKey y = rawKey x)) = some x) ∧
    uniqueHolidays (uniqueHolidays l) = uniqueHolidays l := by
  refine ⟨?_, ?_, ?_⟩
  · rw [parseRemote, List.pairwise_map]
    refine ((uniqueHolidaysGo_keys (filteredRecords data) []).1).imp_of_mem ?_
    intro a b ha hb hne
    rintro ⟨hdate, hname⟩
    apply hne
    have hda := date_isSome_of_mem_filtered data a
      (mem_of_mem_uniqueHolidaysGo _ _ _ ha)
    have hdb := date_isSome_of_mem_filtered data b
      (mem_of_mem_uniqueHolidaysGo _ _ _ hb)
    rw [rawKey, rawKey]
    simp only at hdate hname
    rcases hoa : a.date with _ | va
    · rw [hoa] at hda
      simp at hda
    rcases hob : b.date with _ | vb
    · rw [hob] at hdb
      simp at hdb
    rw [hoa, hob] at hdate
    simp only [Option.getD_some] at hdate
    rw [hdate, hname]
  · have := mem_uniqueHolidaysGo_iff l [] x
    rw [uniqueHolidays, this]
    simp
  · rw [uniqueHolidays, uniqueHolidays]
    exact uniqueHolidaysGo_id _ [] (uniqueHolidaysGo_keys l []).1 (by simp)

/-- C4 counterexample: importing a file with two identical events (same date,
same summary) yields two canonical records with the same `(date, name)` pair —
the import adapter's normalization does not deduplicate. -/
theorem claim_C4_cx_import_keeps_duplicates :
    ¬ (parseICSEvents
        [{ date := 739412, summary := some "X" },
         { date := 739412, summary := some "X" }]).Pairwise
      (fun a b => ¬(a.date = b.date ∧ a.name = b.name)) := by decide

/-- C4 witness: the theorem at a concrete duplicated remote input — the
second copy of the record is dropped, the survivor is the first match for its
key, and re-normalizing changes nothing. -/
theorem claim_C4_witness :
    (({ date := some 739412, localName := some " Day " } : RawRecord) ∈
      uniqueHolidays
        [{ date := some 739412, localName := some " Day " },
         { date := some 739412, localName := some "Day" }] ↔
      List.find?
        (fun y => decide (rawKey y =
          rawKey { date := some 739412, localName := some " Day " }))
        [{ date := some 739412, localName := some " Day " },
         { date := some 739412, localName := some "Day" }] =
        some { date := some 739412, localName := some " Day " }) ∧
    uniqueHolidays
      (uniqueHolidays
        [{ date := some 739412, localName := some " Day " },
         { date := some 739412, localName := some "Day" }]) =
      uniqueHolidays
        [{ date := some 739412, localName := some " Day " },
         { date := some 739412, localName := some "Day" }] :=
  ⟨(claim_C4_remote_dedup []
      [{ date := some 739412, localName := some " Day " },
       { date := some 739412, localName := some "Day" }]
      { date := some 739412, localName := some " Day " }).2.1,
   (claim_C4_remote_dedup []
      [{ date := some 739412, localName := some " Day " },
       { date := some 739412, localName := some "Day" }]
      { date := some 739412, localName := some " Day " }).2.2⟩

/-! ### Claim C7 -/

/-- C7: no record surviving the remote adapter's normalization is
weekend-dated — every raw record whose date falls on a Saturday or Sunday is
discarded before canonicalization, for all inputs. -/
theorem claim_C7_no_weekend_in_canonical_set (data : List RawRecord)
    (h : Holiday) (hh : h ∈ parseRemote data) : isWeekend h.date = false := by
  rw [parseRemote] at hh
  rcases List.mem_map.mp hh with ⟨r, hr, hmap⟩
  have hrf := mem_of_mem_uniqueHolidaysGo _ _ _ hr
  have hpred := (List.mem_filter.mp hrf).2
  simp only [Bool.and_eq_true, Bool.not_eq_true'] at hpred
  have hdate : h.date = r.date.getD 0 := by
    rw [← hmap]
  rw [hdate]
  exact hpred.2

/-- C7 witness: the theorem applied to a one-record input dated Tuesday,
June 10, 2025 (Rata Die 739412): the canonical record is not weekend-dated. -/
theorem claim_C7_witness :
    isWeekend
      (({ date := 739412, name := "Day", type := HolidayType.regular } : Holiday).date) =
      false :=
  claim_C7_no_weekend_in_canonical_set
    [{ date := some 739412, localName := some " Day " }] _ (by decide)

/-! ### Claim C8 -/

/-- C8: each failure kind leaves its specified post-state — the blocked
country code `"IN"` yields the data-unavailable outcome with an empty holiday
set and no network request issued, whatever the network would have returned;
a remote failure clears the set, issues the request, and reports a message
distinct from the data-unavailable one; and a failed import leaves the
previous holiday set (and filter) completely unchanged, signalling
synchronously. -/
theorem claim_C8_failure_poststates (remote : Option (List RawRecord))
    (prev : List Holiday) (prevFilter : Bool) :
    fetchHolidaysStep "IN" remote =
      { holidays := [], errorMessage := some dataUnavailableMsg, requested := false } ∧
    (∀ c : String, c ≠ "IN" → fetchHolidaysStep c none =
      { holidays := [], errorMessage := some fetchFailedMsg, requested := true }) ∧
    dataUnavailableMsg ≠ fetchFailedMsg ∧
    handleICSFileStep prev prevFilter none =
      { holidays := prev, showOnlyHolidays := prevFilter, alerted := true } := by
  refine ⟨?_, ?_, by decide, rfl⟩
  · unfold fetchHolidaysStep
    rw [if_pos rfl]
  · intro c hc
    unfold fetchHolidaysStep
    rw [if_neg hc]

/-- C8 witness: the theorem at concrete inputs — the blocked code with a
would-be-successful network, a failing fetch for `"US"`, and a failing import
over the mock holiday set. -/
theorem claim_C8_witness :
    fetchHolidaysStep "IN" (some [{ date := some 739412, localName := some "Day" }]) =
      { holidays := [], errorMessage := some dataUnavailableMsg, requested := false } ∧
    fetchHolidaysStep "US" none =
      { holidays := [], errorMessage := some fetchFailedMsg, requested := true } ∧
    handleICSFileStep mockHolidays true none =
      { holidays := mockHolidays, showOnlyHolidays := true, alerted := true } :=
  ⟨(claim_C8_failure_poststates
      (some [{ date := some 739412, localName := some "Day" }]) [] false).1,
   (claim_C8_failure_poststates none [] false).2.1 "US" (by decide),
   (claim_C8_failure_poststates none mockHolidays true).2.2.2⟩

end CalendarWidget
